import Mathlib

/-!
Verification of the quiz YAML converter core (`quiz_yaml_converter/converter.go`):
the bracket-quoting normalizer `AddQuotesIfNeeded`, the criteria formatter
`formatCriteriaSection` / `FormatCriteria`, and the validation pass
`validateQuizItem` / `ValidateYAMLFile`.

Modelling conventions:
- Go strings are modelled as `List Char`.  The Go code only tests byte-level
  prefix/suffix/containment of the complete UTF-8 sequences of `「` and `」`;
  since UTF-8 is self-synchronizing, these coincide with the character-level
  tests on the `List Char` model.
- A Go `map[string][]string` value (which may be `nil`) is modelled as
  `Option` of an association list; `none` is the nil map.  Reads on a Go nil
  map behave exactly like reads on an empty map, and iteration order of an
  assoc list stands in for Go's map iteration order.
- `strings.Join` is `List.intercalate`; `strings.TrimSpace` trims the
  characters Go's `unicode.IsSpace` accepts, enumerated in `isGoSpace`.
-/

namespace QuizYaml

/-- The open bracket `「` used by the normalizer. -/
def op : Char := '「'

/-- The close bracket `」` used by the normalizer. -/
def cl : Char := '」'

/-- `AddQuotesIfNeeded` from converter.go lines 55-76: adds `「`/`」` around
`item` as needed.  `strings.HasPrefix item "「"` is `item.head? = some op`,
`strings.HasSuffix item "」"` is `item.getLast? = some cl`, and
`strings.Contains item "」"` is `cl ∈ item`. -/
def AddQuotesIfNeeded (item : List Char) : List Char :=
  -- Already starts with 「 and ends with 」
  if item.head? = some op ∧ item.getLast? = some cl then item
  else if item.head? = some op then
    -- Contains 」 somewhere
    if cl ∈ item then item
    else item ++ [cl]
  -- Ends with 」 but doesn't start with 「
  else if ¬item.head? = some op ∧ item.getLast? = some cl then op :: item
  -- No quotes at all, add both
  else op :: (item ++ [cl])

/-- `formatCriteriaSection` from converter.go lines 80-90: normalize every
element, concatenate (Go `strings.Join` with separator `""`), append the
suffix.  The Go `append` loop building `formattedItems` is the `foldl`. -/
def formatCriteriaSection (items : List (List Char)) (suffix : List Char) : List Char :=
  if items.length = 0 then []
  else
    let formattedItems : List (List Char) :=
      items.foldl (fun acc item => acc ++ [AddQuotesIfNeeded item]) []
    List.intercalate [] formattedItems ++ suffix

/-- A Go `map[string][]string` value: `none` is the nil map. -/
abbrev GoMap := Option (List (String × List (List Char)))

/-- Go map read `m[k]` with its `exists` flag: `none` means the key is
absent (always the case on a nil map). -/
def mapLookup (m : GoMap) (k : String) : Option (List (List Char)) :=
  match m with
  | none => none
  | some l => l.lookup k

/-- The suffix `は誤答` attached to the rejected (`ng`) section. -/
def ngSuffix : List Char := "は誤答".data

/-- The suffix `はもう一度` attached to the repeat-required section. -/
def repeatSuffix : List Char := "はもう一度".data

/-- The full-width slash `／` joining the category sections. -/
def criteriaSep : List Char := "／".data

/-- `FormatCriteria` from converter.go lines 95-114: the `ok`, `ng`, `repeat`
sections are collected in that fixed program order (each only when present
and non-empty) and joined with `／`. -/
def FormatCriteria (criteria : GoMap) : List Char :=
  let parts : List (List Char) :=
    (match mapLookup criteria "ok" with
      | some ok => if 0 < ok.length then [formatCriteriaSection ok []] else []
      | none => []) ++
    (match mapLookup criteria "ng" with
      | some ng => if 0 < ng.length then [formatCriteriaSection ng ngSuffix] else []
      | none => []) ++
    (match mapLookup criteria "repeat" with
      | some rp => if 0 < rp.length then [formatCriteriaSection rp repeatSuffix] else []
      | none => [])
  List.intercalate criteriaSep parts

/-- One quiz record (struct `QuizItem`); the `Criteria` field is a possibly
nil Go map. -/
structure QuizItem where
  Question : List Char
  Answer : List Char
  Spell : List Char
  Comments : List (List Char)
  Criteria : GoMap

/-- The characters accepted by Go's `unicode.IsSpace` (ASCII whitespace,
NEL, NBSP, and the Unicode White_Space code points). -/
def isGoSpace (c : Char) : Bool :=
  c = '\t' || c = '\n' || c = '\x0b' || c = '\x0c' || c = '\r' || c = ' ' ||
  c = '\x85' || c = '\xa0' || c = ' ' ||
  (' ' ≤ c && c ≤ ' ') ||
  c = ' ' || c = ' ' || c = ' ' || c = ' ' || c = '　'

/-- Go `strings.TrimSpace`: drop leading and trailing whitespace. -/
def trimSpace (s : List Char) : List Char :=
  (((s.dropWhile isGoSpace).reverse).dropWhile isGoSpace).reverse

/-- The ASCII apostrophe quoting the offending key in the invalid-key
message. -/
def apos : Char := Char.ofNat 39

/-- The per-record message prefix `問題 %d: `. -/
def errPre (index : Nat) : List Char :=
  "問題 ".data ++ Nat.toDigits 10 index ++ ": ".data

/-- Message for an empty `question` field. -/
def questionEmptyErr (index : Nat) : List Char :=
  errPre index ++ "問題文 (question) が空です".data

/-- Message for an empty `answer` field. -/
def answerEmptyErr (index : Nat) : List Char :=
  errPre index ++ "答え (answer) が空です".data

/-- Message for an empty element of a criteria list: `criteria.<cat>[%d] が空です`. -/
def entryEmptyErr (index : Nat) (cat : List Char) (j : Nat) : List Char :=
  errPre index ++ "criteria.".data ++ cat ++ "[".data ++ Nat.toDigits 10 j ++
    "] が空です".data

/-- Message for an unrecognized criteria key. -/
def invalidKeyErr (index : Nat) (key : String) : List Char :=
  errPre index ++ "不正なcriteriaキー: ".data ++ [apos] ++ key.data ++ [apos] ++
    " (使用可能: ok, ng, repeat)".data

/-- Message for an empty comment entry: `comments[%d] が空です`. -/
def commentEmptyErr (index : Nat) (j : Nat) : List Char :=
  errPre index ++ "comments[".data ++ Nat.toDigits 10 j ++ "] が空です".data

/-- Message emitted when the record collection is empty. -/
def noQuizDataErr : List Char := "YAMLファイルにクイズデータが含まれていません".data

/-- The recognized criteria keys (`validKeys` in `validateQuizItem`). -/
def validKeys : List String := ["ok", "ng", "repeat"]

/-- The indexed loop `for j, x := range l` emitting `msg j` whenever
`strings.TrimSpace x` is empty. -/
def checkEntries (msg : Nat → List Char) : Nat → List (List Char) → List (List Char)
  | _, [] => []
  | j, a :: rest =>
    (if trimSpace a = [] then [msg j] else []) ++ checkEntries msg (j + 1) rest

/-- `validateQuizItem` from converter.go lines 205-261: collects, in program
order, the question check, the answer check, the per-list criteria entry
checks, the unrecognized-key checks, and the comment entry checks. -/
def validateQuizItem (item : QuizItem) (index : Nat) : List (List Char) :=
  (if trimSpace item.Question = [] then [questionEmptyErr index] else []) ++
  (if trimSpace item.Answer = [] then [answerEmptyErr index] else []) ++
  (match item.Criteria with
   | none => []
   | some m =>
     (match m.lookup "ok" with
      | some ok => checkEntries (fun j => entryEmptyErr index "ok".data j) 0 ok
      | none => []) ++
     (match m.lookup "ng" with
      | some ng => checkEntries (fun j => entryEmptyErr index "ng".data j) 0 ng
      | none => []) ++
     (match m.lookup "repeat" with
      | some rp => checkEntries (fun j => entryEmptyErr index "repeat".data j) 0 rp
      | none => []) ++
     ((m.filter (fun p => !(validKeys.contains p.1))).map
       (fun p => invalidKeyErr index p.1))) ++
  checkEntries (fun j => commentEmptyErr index j) 0 item.Comments

/-- Struct `ValidationResult`. -/
structure ValidationResult where
  IsValid : Bool
  Errors : List (List Char)
  Items : Nat

/-- The post-load part of `ValidateYAMLFile` (converter.go lines 184-201):
given the decoded record list, validate every item, accumulating all
findings, then flag an empty collection. -/
def validateYAMLData (data : List QuizItem) : ValidationResult :=
  let afterItems :=
    data.enum.foldl
      (fun acc p =>
        let itemErrors := validateQuizItem p.2 (p.1 + 1)
        if 0 < itemErrors.length then
          { acc with IsValid := false, Errors := acc.Errors ++ itemErrors }
        else acc)
      { IsValid := true, Errors := [], Items := data.length }
  if data.length = 0 then
    { afterItems with IsValid := false, Errors := afterItems.Errors ++ [noQuizDataErr] }
  else afterItems

/-- The guarded criteria cell of `ConvertYAMLToCSV` (converter.go lines
335-339): empty string when the `Criteria` map is nil, `FormatCriteria`
otherwise. -/
def csvCriteriaText (criteria : GoMap) : List Char :=
  match criteria with
  | some _ => FormatCriteria criteria
  | none => []

/-- A criteria entry whose key is one of the three recognized category
names `ok`, `ng`, `repeat`. -/
def recognizedKey (p : String × List (List Char)) : Bool :=
  p.1 == "ok" || p.1 == "ng" || p.1 == "repeat"

/-- Folding the Go `append` loop equals mapping. -/
theorem foldl_append_eq_map (f : List Char → List Char) (l : List (List Char)) :
    ∀ acc : List (List Char),
      l.foldl (fun acc item => acc ++ [f item]) acc = acc ++ l.map f := by
  induction l with
  | nil => intro acc; simp
  | cons a t ih => intro acc; simp [ih]

/-- `strings.Join` with the empty separator is plain concatenation. -/
theorem intercalate_nil_eq_join (xs : List (List Char)) :
    List.intercalate [] xs = xs.flatten := by
  induction xs with
  | nil => rfl
  | cons a t ih =>
    cases t with
    | nil => simp [List.intercalate, List.intersperse]
    | cons b t' =>
      simp only [List.intercalate, List.intersperse] at ih ⊢
      simp [ih]

/-- Association-list lookup is stable under permutation when the keys have
no duplicates (the Go map iteration/insertion order does not matter). -/
theorem lookup_eq_of_perm {β : Type} {l₁ l₂ : List (String × β)} (h : l₁.Perm l₂) :
    (l₁.map Prod.fst).Nodup → ∀ k : String, l₁.lookup k = l₂.lookup k := by
  induction h with
  | nil => intro _ _; rfl
  | cons a h ih =>
    intro hnd k
    obtain ⟨ka, va⟩ := a
    simp only [List.map_cons, List.nodup_cons] at hnd
    cases hk : k == ka <;> simp [List.lookup, hk, ih hnd.2 k]
  | swap x y l =>
    intro hnd k
    obtain ⟨kx, vx⟩ := x
    obtain ⟨ky, vy⟩ := y
    have hne : ky ≠ kx := by
      intro e
      simp only [List.map_cons, List.nodup_cons] at hnd
      exact hnd.1 (by rw [e]; exact List.mem_cons_self _ _)
    cases hk1 : k == kx <;> cases hk2 : k == ky <;>
      simp [List.lookup, hk1, hk2]
    exact absurd ((eq_of_beq hk2).symm.trans (eq_of_beq hk1)) hne
  | trans h1 h2 ih1 ih2 =>
    intro hnd k
    rw [ih1 hnd k, ih2 ((h1.map Prod.fst).nodup hnd) k]

/-- Dropping unrecognized entries does not change the lookup of a
recognized key. -/
theorem lookup_filter_recognized (l : List (String × List (List Char))) (k : String)
    (hk : k = "ok" ∨ k = "ng" ∨ k = "repeat") :
    (l.filter recognizedKey).lookup k = l.lookup k := by
  induction l with
  | nil => rfl
  | cons a t ih =>
    obtain ⟨ka, va⟩ := a
    by_cases hr : recognizedKey (ka, va) = true
    · rw [List.filter_cons_of_pos hr]
      cases hkk : k == ka <;> simp [List.lookup, hkk, ih]
    · rw [List.filter_cons_of_neg hr]
      have hkk : (k == ka) = false := by
        refine beq_eq_false_iff_ne.mpr fun e => hr ?_
        rcases hk with rfl | rfl | rfl <;> simp [recognizedKey, ← e]
      simp [List.lookup, hkk, ih]

/-- C1: `AddQuotesIfNeeded` implements the four-case decision table in
priority order: unchanged when bracketed on both ends; unchanged when it
starts with `「` and contains a `」` somewhere, else `」` appended; `「`
prepended when it only ends with `」`; otherwise wrapped on both sides. -/
theorem addQuotesIfNeeded_decision_table (text : List Char) :
    (text.head? = some op → text.getLast? = some cl →
      AddQuotesIfNeeded text = text) ∧
    (text.head? = some op → ¬text.getLast? = some cl → cl ∈ text →
      AddQuotesIfNeeded text = text) ∧
    (text.head? = some op → ¬text.getLast? = some cl → cl ∉ text →
      AddQuotesIfNeeded text = text ++ [cl]) ∧
    (¬text.head? = some op → text.getLast? = some cl →
      AddQuotesIfNeeded text = op :: text) ∧
    (¬text.head? = some op → ¬text.getLast? = some cl →
      AddQuotesIfNeeded text = op :: (text ++ [cl])) := by
  unfold AddQuotesIfNeeded
  refine ⟨fun h1 h2 => ?_, fun h1 h2 h3 => ?_, fun h1 h2 h3 => ?_,
    fun h1 h2 => ?_, fun h1 h2 => ?_⟩ <;> simp [h1, h2]
  · simp [h3]
  · simp [h3]

/-- Witness for C1: case 2 (starts with `「`, no `」` anywhere) appends one
`」`. -/
theorem addQuotesIfNeeded_decision_table_witness :
    AddQuotesIfNeeded ['「', 'a'] = ['「', 'a'] ++ [cl] :=
  (addQuotesIfNeeded_decision_table ['「', 'a']).2.2.1 (by decide) (by decide)
    (by decide)

/-- C3: the bracket normalizer is idempotent. -/
theorem addQuotesIfNeeded_idempotent (s : List Char) :
    AddQuotesIfNeeded (AddQuotesIfNeeded s) = AddQuotesIfNeeded s := by
  have tbl := addQuotesIfNeeded_decision_table
  by_cases hh : s.head? = some op <;> by_cases hl : s.getLast? = some cl
  · simp only [(tbl s).1 hh hl]
  · by_cases hm : cl ∈ s
    · simp only [(tbl s).2.1 hh hl hm]
    · rw [(tbl s).2.2.1 hh hl hm]
      exact (tbl (s ++ [cl])).1 (by rw [List.head?_append, hh]; rfl)
        (List.getLast?_concat s)
  · rw [(tbl s).2.2.2.1 hh hl]
    have hne : s ≠ [] := by
      rcases List.getLast?_eq_some_iff.mp hl with ⟨ys, rfl⟩; simp
    exact (tbl (op :: s)).1 rfl
      (by rw [show op :: s = [op] ++ s from rfl,
        List.getLast?_append_of_ne_nil _ hne]; exact hl)
  · rw [(tbl s).2.2.2.2 hh hl]
    exact (tbl (op :: (s ++ [cl]))).1 rfl
      (by rw [show op :: (s ++ [cl]) = [op] ++ (s ++ [cl]) from rfl,
        List.getLast?_append_of_ne_nil _ (by simp)]; exact List.getLast?_concat s)

/-- C8: the empty string falls into case 4 and becomes the empty bracketed
pair `「」`, and a whitespace-only string is handled by the same table with
no special-casing: it too falls into case 4 and is wrapped on both sides. -/
theorem addQuotesIfNeeded_empty_and_whitespace :
    AddQuotesIfNeeded [] = [op, cl] ∧
    ∀ s : List Char, (∀ c ∈ s, isGoSpace c = true) →
      AddQuotesIfNeeded s = op :: (s ++ [cl]) := by
  refine ⟨rfl, fun s hs => ?_⟩
  apply (addQuotesIfNeeded_decision_table s).2.2.2.2
  · intro h
    have hop : op ∈ s := by
      cases s with
      | nil => simp at h
      | cons a t =>
        simp only [List.head?_cons, Option.some.injEq] at h
        simp [h]
    exact absurd (hs op hop) (by decide)
  · intro h
    rcases List.getLast?_eq_some_iff.mp h with ⟨ys, rfl⟩
    exact absurd (hs cl (by simp)) (by decide)

/-- Witness for C8: the two-space string is wrapped on both sides. -/
theorem addQuotesIfNeeded_empty_and_whitespace_witness :
    AddQuotesIfNeeded [' ', ' '] = op :: ([' ', ' '] ++ [cl]) :=
  addQuotesIfNeeded_empty_and_whitespace.2 [' ', ' '] (by decide)

/-- C9: every output of the normalizer starts with `「`, contains a `」`,
and has the input as a contiguous substring — the function only ever
prepends `「` or appends `」`. -/
theorem addQuotesIfNeeded_output_invariant (s : List Char) :
    (AddQuotesIfNeeded s).head? = some op ∧ cl ∈ AddQuotesIfNeeded s ∧
      List.IsInfix s (AddQuotesIfNeeded s) := by
  have tbl := addQuotesIfNeeded_decision_table s
  by_cases hh : s.head? = some op <;> by_cases hl : s.getLast? = some cl
  · rw [tbl.1 hh hl]
    refine ⟨hh, ?_, List.infix_rfl⟩
    rcases List.getLast?_eq_some_iff.mp hl with ⟨ys, rfl⟩; simp
  · by_cases hm : cl ∈ s
    · rw [tbl.2.1 hh hl hm]
      exact ⟨hh, hm, List.infix_rfl⟩
    · rw [tbl.2.2.1 hh hl hm]
      refine ⟨?_, by simp, ⟨[], [cl], by simp⟩⟩
      rw [List.head?_append, hh]; rfl
  · rw [tbl.2.2.2.1 hh hl]
    refine ⟨rfl, ?_, ⟨[op], [], by simp⟩⟩
    rcases List.getLast?_eq_some_iff.mp hl with ⟨ys, rfl⟩; simp
  · rw [tbl.2.2.2.2 hh hl]
    exact ⟨rfl, by simp, ⟨[op], [cl], by simp⟩⟩

/-- C4: `formatCriteriaSection` returns the empty string on an empty list,
and otherwise the concatenation (in order, with no separator) of the
normalized elements followed by the suffix; e.g.
`formatCriteriaSection ["a","b"] "Y" = "「a」「b」Y"`. -/
theorem formatCriteriaSection_spec :
    (∀ suffix : List Char, formatCriteriaSection [] suffix = []) ∧
    (∀ (items : List (List Char)) (suffix : List Char), items ≠ [] →
      formatCriteriaSection items suffix =
        (items.map AddQuotesIfNeeded).flatten ++ suffix) ∧
    formatCriteriaSection ["a".data, "b".data] "Y".data = "「a」「b」Y".data := by
  refine ⟨fun suffix => rfl, fun items suffix hne => ?_, by decide⟩
  unfold formatCriteriaSection
  rw [if_neg (by simpa using hne)]
  simp only [foldl_append_eq_map, List.nil_append, intercalate_nil_eq_join]

/-- Witness for C4: the singleton list with empty suffix. -/
theorem formatCriteriaSection_spec_witness :
    formatCriteriaSection ["a".data] [] =
      ((["a".data]).map AddQuotesIfNeeded).flatten ++ [] :=
  formatCriteriaSection_spec.2.1 ["a".data] [] (by decide)

/-- C2: `FormatCriteria` evaluates `ok` (no suffix), `ng` (`は誤答`),
`repeat` (`はもう一度`) in that fixed order, joining the non-empty sections
with `／`; the output does not depend on the insertion order of the map
(modelled as: any permutation of the entries with duplicate-free keys gives
the same output), and the concrete three-category example formats as
specified. -/
theorem formatCriteria_fixed_order :
    (∀ l₁ l₂ : List (String × List (List Char)), l₁.Perm l₂ →
      (l₁.map Prod.fst).Nodup →
      FormatCriteria (some l₁) = FormatCriteria (some l₂)) ∧
    FormatCriteria (some [("ok", ["ok1".data, "ok2".data]), ("ng", ["ng1".data]),
        ("repeat", ["rep1".data])]) =
      "「ok1」「ok2」／「ng1」は誤答／「rep1」はもう一度".data := by
  refine ⟨fun l₁ l₂ h hnd => ?_, by decide⟩
  unfold FormatCriteria
  simp only [mapLookup]
  rw [lookup_eq_of_perm h hnd "ok", lookup_eq_of_perm h hnd "ng",
    lookup_eq_of_perm h hnd "repeat"]

/-- Witness for C2: swapping the insertion order of `ng` and `ok` leaves
the formatted output unchanged. -/
theorem formatCriteria_fixed_order_witness :
    FormatCriteria (some [("ng", ["ng1".data]), ("ok", ["ok1".data, "ok2".data])]) =
      FormatCriteria (some [("ok", ["ok1".data, "ok2".data]), ("ng", ["ng1".data])]) :=
  formatCriteria_fixed_order.1 _ _ (List.Perm.swap _ _ _) (by decide)

/-- C5: `FormatCriteria` is total with no error outcome: unrecognized keys
contribute nothing (removing them all changes nothing), and when the three
recognized categories are absent or empty the result is the empty string —
in particular on the empty map. -/
theorem formatCriteria_total_ignores_unrecognized :
    (∀ m : GoMap,
      FormatCriteria (m.map (fun l => l.filter recognizedKey)) = FormatCriteria m) ∧
    (∀ m : GoMap,
      (∀ v, mapLookup m "ok" = some v → v = []) →
      (∀ v, mapLookup m "ng" = some v → v = []) →
      (∀ v, mapLookup m "repeat" = some v → v = []) →
      FormatCriteria m = []) ∧
    FormatCriteria (some []) = [] := by
  refine ⟨fun m => ?_, fun m hok hng hrp => ?_, rfl⟩
  · cases m with
    | none => rfl
    | some l =>
      show FormatCriteria (some (l.filter recognizedKey)) = FormatCriteria (some l)
      unfold FormatCriteria
      simp only [mapLookup]
      rw [lookup_filter_recognized l "ok" (Or.inl rfl),
        lookup_filter_recognized l "ng" (Or.inr (Or.inl rfl)),
        lookup_filter_recognized l "repeat" (Or.inr (Or.inr rfl))]
  · unfold FormatCriteria
    rcases e1 : mapLookup m "ok" with _ | v1 <;>
      rcases e2 : mapLookup m "ng" with _ | v2 <;>
        rcases e3 : mapLookup m "repeat" with _ | v3 <;>
          simp only [e1, e2, e3]
    all_goals
      first
      | rfl
      | (try obtain rfl := hok v1 e1
         try obtain rfl := hng v2 e2
         try obtain rfl := hrp v3 e3
         rfl)

/-- Witness for C5: a map holding only an unrecognized key formats to the
empty string, and filtering it down to recognized keys changes nothing. -/
theorem formatCriteria_total_ignores_unrecognized_witness :
    FormatCriteria ((some [("other", ["x".data])] : GoMap).map
        (fun l => l.filter recognizedKey)) =
      FormatCriteria (some [("other", ["x".data])]) ∧
    FormatCriteria (some [("other", ["x".data])]) = [] :=
  ⟨formatCriteria_total_ignores_unrecognized.1 _,
   formatCriteria_total_ignores_unrecognized.2.1 (some [("other", ["x".data])])
     (fun _ h => nomatch h) (fun _ h => nomatch h) (fun _ h => nomatch h)⟩

/-- The entry check emits nothing when every entry is non-blank. -/
theorem checkEntries_eq_nil (msg : Nat → List Char) :
    ∀ (l : List (List Char)), (∀ x ∈ l, ¬trimSpace x = []) →
      ∀ j : Nat, checkEntries msg j l = []
  | [], _, _ => rfl
  | a :: t, h, j => by
    simp only [checkEntries]
    rw [if_neg (h a (List.mem_cons_self a t)), List.nil_append]
    exact checkEntries_eq_nil msg t (fun x hx => h x (List.mem_cons_of_mem a hx)) (j + 1)

/-- C6: validation accumulates every finding and never fails fast: a sole
record with a non-blank question, a blank answer, and a criteria map whose
recognized categories are well formed but which carries one unrecognized
key yields an invalid report with exactly the two expected issue
descriptions. -/
theorem validateYAMLData_accumulates (q a sp : List Char) (k : String)
    (v okv ngv rpv : List (List Char)) (item : QuizItem)
    (hitem : item = ⟨q, a, sp, [],
      some [("ok", okv), ("ng", ngv), ("repeat", rpv), (k, v)]⟩)
    (hq : ¬trimSpace q = []) (ha : trimSpace a = [])
    (hk1 : k ≠ "ok") (hk2 : k ≠ "ng") (hk3 : k ≠ "repeat")
    (hok : ∀ x ∈ okv, ¬trimSpace x = []) (hng : ∀ x ∈ ngv, ¬trimSpace x = [])
    (hrp : ∀ x ∈ rpv, ¬trimSpace x = []) :
    (validateYAMLData [item]).IsValid = false ∧
    (validateYAMLData [item]).Errors.length = 2 ∧
    (validateYAMLData [item]).Errors = [answerEmptyErr 1, invalidKeyErr 1 k] := by
  subst hitem
  have hfk : (!(validKeys.contains k)) = true := by
    simp [validKeys, hk1, hk2, hk3]
  have hvi : validateQuizItem
      ⟨q, a, sp, [], some [("ok", okv), ("ng", ngv), ("repeat", rpv), (k, v)]⟩ 1
      = [answerEmptyErr 1, invalidKeyErr 1 k] := by
    simp only [validateQuizItem, List.lookup]
    simp [hq, ha, hfk, checkEntries, checkEntries_eq_nil _ okv hok,
      checkEntries_eq_nil _ ngv hng, checkEntries_eq_nil _ rpv hrp]
    simp [validKeys, List.filter_cons, hk1, hk2, hk3]
  have hv : validateYAMLData
      [⟨q, a, sp, [], some [("ok", okv), ("ng", ngv), ("repeat", rpv), (k, v)]⟩]
      = ⟨false, [answerEmptyErr 1, invalidKeyErr 1 k], 1⟩ := by
    unfold validateYAMLData
    simp [List.enum, List.enumFrom, hvi]
  rw [hv]
  exact ⟨rfl, rfl, rfl⟩

/-- Witness for C6: the concrete record with question `q`, empty answer,
empty recognized lists, and the unrecognized key `bad`. -/
theorem validateYAMLData_accumulates_witness :
    (validateYAMLData [⟨"q".data, [], [], [],
        some [("ok", []), ("ng", []), ("repeat", []),
          ("bad", ["z".data])]⟩]).IsValid = false ∧
    (validateYAMLData [⟨"q".data, [], [], [],
        some [("ok", []), ("ng", []), ("repeat", []),
          ("bad", ["z".data])]⟩]).Errors.length = 2 ∧
    (validateYAMLData [⟨"q".data, [], [], [],
        some [("ok", []), ("ng", []), ("repeat", []),
          ("bad", ["z".data])]⟩]).Errors =
      [answerEmptyErr 1, invalidKeyErr 1 "bad"] :=
  validateYAMLData_accumulates "q".data [] [] "bad" ["z".data] [] [] [] _ rfl
    (by decide) rfl (by decide) (by decide) (by decide)
    (by simp) (by simp) (by simp)

/-- C7: on an empty record collection the validation pass reports overall
invalidity, the no-quiz-data message, and a record count of zero. -/
theorem validateYAMLData_empty_collection :
    (validateYAMLData []).IsValid = false ∧
    (validateYAMLData []).Errors = [noQuizDataErr] ∧
    (validateYAMLData []).Items = 0 :=
  ⟨rfl, rfl, rfl⟩

/-- C10: `FormatCriteria` of the nil map is the empty string, the same as
on the empty map, so the nil guard in the CSV writer is redundant: the
guarded cell always equals the unguarded `FormatCriteria` call. -/
theorem formatCriteria_nil_guard_redundant :
    FormatCriteria none = [] ∧
    FormatCriteria none = FormatCriteria (some []) ∧
    ∀ criteria : GoMap, csvCriteriaText criteria = FormatCriteria criteria := by
  refine ⟨rfl, rfl, fun criteria => ?_⟩
  cases criteria <;> rfl

end QuizYaml
